import Mathlib

/-!
Shallow embedding of the `mac-uploader` upload pipeline
(`src/upload_queue.rs` and `src/upload_manager.rs`).

Conventions of the embedding:
* `Uuid::new_v4()` is modelled by a fresh-id counter threaded through the
  system state (`SysState.nextId`); freshness of v4 uuids is the assumption.
* `Utc::now()` timestamps are supplied by the environment as `Nat` event
  parameters.
* `f32` progress values are modelled as `ℚ`; the program only ever assigns
  the constants `0`, `0.1`, `0.9`, `1.0` and never does float arithmetic on
  them in the flows considered.
* `PathBuf` is modelled by `FsPath`: a directory part plus an optional
  final component (`FileBase`, stem and optional extension), mirroring
  `file_name()` / `file_stem()` / `extension()`.
* The filesystem is modelled by two association lists (name, content):
  the watch folder and the `uploaded` folder.
* Every fallible external effect (thumbnail generation, the API call,
  `fs::rename`) is decided by an oracle parameter on the event, matching
  its `Result` type in the code.
-/

/-- `UploadStatus` from `upload_queue.rs`. -/
inductive UploadStatus where
  | Queued : UploadStatus
  | Uploading : UploadStatus
  | Completed : UploadStatus
  | Failed : String → UploadStatus
deriving DecidableEq, Repr

/-- Rust `file_name()` component of a path: stem plus optional extension. -/
structure FileBase where
  stem : String
  ext : Option String
deriving DecidableEq, Repr

/-- A `PathBuf`: parent directory as a string, and the final component when
the path has one (`base = none` models paths such as `..` for which
`file_name()` returns `None`). -/
structure FsPath where
  dir : String
  base : Option FileBase
deriving DecidableEq, Repr

/-- The string Rust renders for a `file_name()` component:
`stem.ext` when an extension is present, bare `stem` otherwise. -/
def FileBase.render (b : FileBase) : String :=
  match b.ext with
  | some e => b.stem ++ "." ++ e
  | none => b.stem

/-- `UploadItem` from `upload_queue.rs`. -/
structure UploadItem where
  id : Nat
  file_path : FsPath
  file_name : String
  status : UploadStatus
  added_at : Nat
  started_at : Option Nat
  completed_at : Option Nat
  progress : ℚ
  thumbnail_data : Option (List Nat)
deriving DecidableEq, Repr

/-- `UploadItem::new`: fresh id, name rendered from the path
(`unwrap_or_default` gives `""` when the path has no final component),
status `Queued`, progress `0.0`, no thumbnail. -/
def UploadItem.new (freshId : Nat) (file_path : FsPath) (now : Nat) : UploadItem :=
  { id := freshId
    file_path := file_path
    file_name := (file_path.base.map FileBase.render).getD ""
    status := UploadStatus.Queued
    added_at := now
    started_at := none
    completed_at := none
    progress := 0
    thumbnail_data := none }

/-- The `f32` literal `0.1` (`progress` on upload start), as a normalized
rational. -/
def ratPt1 : ℚ := ⟨1, 10, by decide, by decide⟩

/-- The `f32` literal `0.9` (`progress` after the successful move), as a
normalized rational. -/
def ratPt9 : ℚ := ⟨9, 10, by decide, by decide⟩

theorem ratPt1_eq : ratPt1 = 1/10 := by
  rw [ratPt1, Rat.mk'_eq_divInt, Rat.divInt_eq_div]
  norm_num

theorem ratPt9_eq : ratPt9 = 9/10 := by
  rw [ratPt9, Rat.mk'_eq_divInt, Rat.divInt_eq_div]
  norm_num

/-- `UploadItem::start_upload`. -/
def UploadItem.start_upload (it : UploadItem) (now : Nat) : UploadItem :=
  { it with status := UploadStatus.Uploading, started_at := some now, progress := ratPt1 }

/-- `UploadItem::update_progress` (clamps to `[0,1]`). -/
def UploadItem.update_progress (it : UploadItem) (p : ℚ) : UploadItem :=
  { it with progress := min (max p 0) 1 }

/-- `UploadItem::complete_upload`. -/
def UploadItem.complete_upload (it : UploadItem) (now : Nat) : UploadItem :=
  { it with status := UploadStatus.Completed, completed_at := some now, progress := 1 }

/-- `UploadItem::fail_upload`: sets `Failed(error)` and `completed_at`,
does not touch `progress`. -/
def UploadItem.fail_upload (it : UploadItem) (error : String) (now : Nat) : UploadItem :=
  { it with status := UploadStatus.Failed error, completed_at := some now }

/-- `UploadQueue` from `upload_queue.rs` (`VecDeque` as a list, front at head). -/
structure UploadQueue where
  items : List UploadItem
  max_concurrent_uploads : Nat
  active_uploads : Nat
deriving DecidableEq, Repr

/-- `UploadQueue::new`. -/
def UploadQueue.new : UploadQueue :=
  { items := [], max_concurrent_uploads := 3, active_uploads := 0 }

/-- `UploadQueue::add_file`.  The fresh uuid, the current time and the
result of `generate_thumbnail` are supplied by the environment.  Returns
the optional new id together with the updated queue. -/
def UploadQueue.add_file (q : UploadQueue) (file_path : FsPath) (freshId : Nat)
    (now : Nat) (thumb : Option (List Nat)) : Option Nat × UploadQueue :=
  if q.items.any (fun item => item.file_path = file_path) then
    (none, q)
  else
    let item := UploadItem.new freshId file_path now
    let item := { item with thumbnail_data := thumb }
    (some item.id, { q with items := q.items ++ [item] })

/-- `UploadQueue::get_queued_items`. -/
def UploadQueue.get_queued_items (q : UploadQueue) : List UploadItem :=
  q.items.filter (fun item => item.status = UploadStatus.Queued)

/-- `UploadQueue::get_active_items`. -/
def UploadQueue.get_active_items (q : UploadQueue) : List UploadItem :=
  q.items.filter (fun item => item.status = UploadStatus.Uploading)

/-- `UploadQueue::get_completed_items`. -/
def UploadQueue.get_completed_items (q : UploadQueue) : List UploadItem :=
  q.items.filter (fun item => item.status = UploadStatus.Completed)

/-- `UploadQueue::get_failed_items`. -/
def UploadQueue.get_failed_items (q : UploadQueue) : List UploadItem :=
  q.items.filter (fun item => match item.status with
    | UploadStatus.Failed _ => true
    | _ => false)

/-- `UploadQueue::get_item_by_id`. -/
def UploadQueue.get_item_by_id (q : UploadQueue) (id : Nat) : Option UploadItem :=
  q.items.find? (fun item => item.id = id)

/-- Functional rendering of mutating through `iter_mut().find(p)`: apply
`f` to the first element satisfying `p`, keep the list unchanged when no
element does. -/
def modifyFirstP {α : Type} (p : α → Bool) (f : α → α) : List α → List α
  | [] => []
  | x :: xs => if p x then f x :: xs else x :: modifyFirstP p f xs

/-- The use pattern of `UploadQueue::get_item_mut_by_id`:
`if let Some(item) = q.get_item_mut_by_id(id) { f(item) }` — modify the
first item carrying `id`, leave the queue unchanged when there is none. -/
def UploadQueue.modify_item_by_id (q : UploadQueue) (id : Nat)
    (f : UploadItem → UploadItem) : UploadQueue :=
  { q with items := modifyFirstP (fun item => item.id = id) f q.items }

/-- `UploadQueue::remove_item`. -/
def UploadQueue.remove_item (q : UploadQueue) (id : Nat) : Option UploadItem × UploadQueue :=
  match q.items.findIdx? (fun item => item.id = id) with
  | some i => (q.items.get? i, { q with items := q.items.eraseIdx i })
  | none => (none, q)

/-- `UploadQueue::clear_completed`. -/
def UploadQueue.clear_completed (q : UploadQueue) : UploadQueue :=
  { q with items := q.items.filter (fun item => item.status ≠ UploadStatus.Completed) }

/-- `UploadQueue::clear_failed`. -/
def UploadQueue.clear_failed (q : UploadQueue) : UploadQueue :=
  { q with items := q.items.filter (fun item => match item.status with
      | UploadStatus.Failed _ => false
      | _ => true) }

/-- `UploadQueue::clear_all`. -/
def UploadQueue.clear_all (q : UploadQueue) : UploadQueue :=
  { q with items := [] }

/-- `UploadQueue::get_next_queued_item` (read part: the first item whose
status is `Queued`, in `VecDeque` order). -/
def UploadQueue.get_next_queued_item (q : UploadQueue) : Option UploadItem :=
  q.items.find? (fun item => item.status = UploadStatus.Queued)

/-- `QueueStats` from `upload_queue.rs`. -/
structure QueueStats where
  total : Nat
  queued : Nat
  active : Nat
  completed : Nat
  failed : Nat
deriving DecidableEq, Repr

/-- `UploadQueue::get_stats`. -/
def UploadQueue.get_stats (q : UploadQueue) : QueueStats :=
  { total := q.items.length
    queued := q.get_queued_items.length
    active := q.get_active_items.length
    completed := q.get_completed_items.length
    failed := q.get_failed_items.length }

/-!
## `api_client.rs` and `upload_manager.rs`
-/

/-- `UploadResponse` from `api_client.rs` (the `s3`/`meta` payloads carry no
control flow in the manager and are omitted). -/
structure UploadResponse where
  success : Bool
  message : String
  photo_id : Option String
deriving DecidableEq, Repr

/-- What the transport layer hands `ApiClient::upload_photo`: a
reqwest-level failure, a non-2xx HTTP status with body text, or a parsed
`UploadResponse` body. -/
inductive TransportResult where
  | transportErr : String → TransportResult
  | httpErr : String → String → TransportResult
  | response : UploadResponse → TransportResult
deriving DecidableEq, Repr

/-- `ApiClient::upload_photo` result handling: transport errors surface as
`ApiError::HttpError` (Display `HTTP error: ...`), non-success statuses and
`success:false` bodies as `ApiError::ApiError` (Display
`API returned error: ...`); a `success:true` body is returned as is.
The `Except` strings are the `Display` renderings used by `format!`. -/
def upload_photo (t : TransportResult) : Except String UploadResponse :=
  match t with
  | TransportResult.transportErr m => Except.error ("HTTP error: " ++ m)
  | TransportResult.httpErr status text =>
      Except.error ("API returned error: HTTP " ++ status ++ ": " ++ text)
  | TransportResult.response r =>
      if r.success then Except.ok r
      else Except.error ("API returned error: " ++ r.message)

/-- Outcome of `fs::rename`, decided by the environment. -/
inductive MoveOutcome where
  | ok : MoveOutcome
  | err : String → MoveOutcome
deriving DecidableEq, Repr

/-- The two directories the manager touches, as (file name, content)
association lists: the watch folder and its `uploaded` subfolder. -/
structure Fs where
  watch : List (String × Nat)
  uploaded : List (String × Nat)
deriving DecidableEq, Repr

/-- The collision-avoiding target name of `upload_and_move_file`: the plain
file name, or `stem_<timestamp>.<extension>` when that name already exists
in the uploaded folder (`extension` falls back to `""`). -/
def finalName (fs : Fs) (b : FileBase) (ts : String) : String :=
  if (fs.uploaded.lookup b.render).isSome then
    b.stem ++ "_" ++ ts ++ "." ++ b.ext.getD ""
  else
    b.render

/-- The effect of the successful `fs::rename` in `upload_and_move_file`:
the source file leaves the watch folder and appears in the uploaded folder
under the collision-avoiding name. -/
def moveFs (fs : Fs) (b : FileBase) (ts : String) : Fs :=
  { watch := fs.watch.eraseP (fun kv => kv.1 = b.render)
    uploaded := (finalName fs b ts, (fs.watch.lookup b.render).getD 0) :: fs.uploaded }

/-- `UploadManager::upload_and_move_file`, sequenced as in the source:
upload via the api client; on success resolve the file name
(`Invalid file name` when absent), compute the collision-avoiding target,
`fs::rename` (failure decided by the `mv` oracle leaves the filesystem
unchanged), and only after a successful move set the item's progress to
`0.9` through `get_item_mut_by_id`.  Returns (result, filesystem, queue). -/
def upload_and_move_file (transport : TransportResult) (mv : MoveOutcome)
    (ts : String) (file_path : FsPath) (item_id : Nat) (fs : Fs)
    (q : UploadQueue) : Except String UploadResponse × Fs × UploadQueue :=
  match upload_photo transport with
  | Except.error e => (Except.error ("API error: " ++ e), fs, q)
  | Except.ok resp =>
    match file_path.base with
    | none => (Except.error "Invalid file name", fs, q)
    | some b =>
      match mv with
      | MoveOutcome.err m => (Except.error ("Failed to move file: " ++ m), fs, q)
      | MoveOutcome.ok =>
        let q' := q.modify_item_by_id item_id (fun it => { it with progress := ratPt9 })
        (Except.ok resp, moveFs fs b ts, q')

/-- Modelled from the spec: the same task but with the progress write at the
position the spec sentence describes — `0.9` is set after the remote call
succeeds and *before* the local move is attempted.  Used only to compare
against `upload_and_move_file`, which performs the write after the move. -/
def upload_and_move_file_specOrder (transport : TransportResult)
    (mv : MoveOutcome) (ts : String) (file_path : FsPath) (item_id : Nat)
    (fs : Fs) (q : UploadQueue) :
    Except String UploadResponse × Fs × UploadQueue :=
  match upload_photo transport with
  | Except.error e => (Except.error ("API error: " ++ e), fs, q)
  | Except.ok resp =>
    match file_path.base with
    | none => (Except.error "Invalid file name", fs, q)
    | some b =>
      let q' := q.modify_item_by_id item_id (fun it => { it with progress := ratPt9 })
      match mv with
      | MoveOutcome.err m => (Except.error ("Failed to move file: " ++ m), fs, q')
      | MoveOutcome.ok =>
        (Except.ok resp, moveFs fs b ts, q')

/-- The failure, if any, of `upload_and_move_file` at the given oracles: the
formatted error string the code would produce, or `none` on full success. -/
def taskFailure (transport : TransportResult) (file_path : FsPath)
    (mv : MoveOutcome) : Option String :=
  match upload_photo transport with
  | Except.error e => some ("API error: " ++ e)
  | Except.ok _ =>
    match file_path.base with
    | none => some "Invalid file name"
    | some _ =>
      match mv with
      | MoveOutcome.err m => some ("Failed to move file: " ++ m)
      | MoveOutcome.ok => none

/-!
## The pipeline as a state machine

The spawned tick loop, the per-item upload tasks and the queue mutators are
modelled as events over a system state.  `Uuid::new_v4()` becomes the
`nextId` counter; an in-flight upload task spawned by the tick loop is a
`pending` entry holding the id and the `file_path` it captured by clone.
A `finish` event runs one spawned task to completion: the code's
`upload_and_move_file` followed by the `complete_upload`/`fail_upload`
handler (all of whose queue accesses go through `get_item_mut_by_id`).
-/

/-- System state: the shared queue, the in-flight upload tasks, the
filesystem and the fresh-uuid source. -/
structure SysState where
  queue : UploadQueue
  pending : List (Nat × FsPath)
  fs : Fs
  nextId : Nat
deriving DecidableEq, Repr

/-- The pipeline events: `add_file` by the watcher/UI, one tick of the
spawned loop, completion of an in-flight upload task with its oracle
outcomes, and the queue mutators exposed to the UI. -/
inductive Event where
  | addFile : FsPath → Nat → Option (List Nat) → Event
  | tick : Nat → Event
  | finish : Nat → TransportResult → MoveOutcome → String → Nat → Event
  | removeItem : Nat → Event
  | clearCompleted : Event
  | clearFailed : Event
  | clearAll : Event

/-- One event of the pipeline.  `tick` is the body of the spawned loop: it
claims the next queued item and flips it to `Uploading` via `start_upload`
in the same critical section, then records the spawned task.  `finish` is
disabled (a stutter) unless the id has an in-flight task. -/
def stepE (s : SysState) (e : Event) : SysState :=
  match e with
  | Event.addFile p now thumb =>
    let r := s.queue.add_file p s.nextId now thumb
    match r.1 with
    | some _ => { s with queue := r.2, nextId := s.nextId + 1 }
    | none => { s with queue := r.2 }
  | Event.tick now =>
    match s.queue.get_next_queued_item with
    | none => s
    | some item =>
      let items' := modifyFirstP (fun it => it.status = UploadStatus.Queued)
        (fun it => it.start_upload now) s.queue.items
      { s with
        queue := { s.queue with items := items' }
        pending := s.pending ++ [(item.id, item.file_path)] }
  | Event.finish id transport mv ts now =>
    match s.pending.find? (fun pr => pr.1 = id) with
    | none => s
    | some pr =>
      let r := upload_and_move_file transport mv ts pr.2 id s.fs s.queue
      let pending' := s.pending.eraseP (fun x => x.1 = id)
      match r.1 with
      | Except.ok _ =>
        { s with
          queue := r.2.2.modify_item_by_id id (fun it => it.complete_upload now)
          fs := r.2.1
          pending := pending' }
      | Except.error e =>
        { s with
          queue := r.2.2.modify_item_by_id id
            (fun it => it.fail_upload ("Upload failed: " ++ e) now)
          fs := r.2.1
          pending := pending' }
  | Event.removeItem id => { s with queue := (s.queue.remove_item id).2 }
  | Event.clearCompleted => { s with queue := s.queue.clear_completed }
  | Event.clearFailed => { s with queue := s.queue.clear_failed }
  | Event.clearAll => { s with queue := s.queue.clear_all }

/-- A whole trace of events. -/
def run (s : SysState) (es : List Event) : SysState :=
  es.foldl stepE s

/-- The state the program starts in: a fresh queue, no in-flight tasks, an
arbitrary initial filesystem. -/
def SysState.init (fs : Fs) : SysState :=
  { queue := UploadQueue.new, pending := [], fs := fs, nextId := 0 }

/-- States the pipeline can actually be in. -/
def Reachable (s : SysState) : Prop :=
  ∃ fs es, run (SysState.init fs) es = s

/-- `UploadManager` (the fields `stop`/`is_running` and the spawned loop
interact with; `api_client` and `log_sender` carry no state the claims
mention).  The spawned loop works on clones captured at `start` time and
holds no reference back to this record. -/
structure UploadManager where
  queue : UploadQueue
  event_code : String
  watch_folder : FsPath
  is_running : Bool
  api_key : String
deriving DecidableEq, Repr

/-- `UploadManager::stop`. -/
def UploadManager.stop (m : UploadManager) : UploadManager :=
  { m with is_running := false }

/-!
## Derived notions and helper lemmas
-/

/-- The status order of the pipeline: `Queued` before `Uploading` before the
terminal states, and each terminal state only related to itself. -/
def UploadStatus.le : UploadStatus → UploadStatus → Prop
  | UploadStatus.Queued, _ => True
  | UploadStatus.Uploading, b => b ≠ UploadStatus.Queued
  | UploadStatus.Completed, b => b = UploadStatus.Completed
  | UploadStatus.Failed m, b => b = UploadStatus.Failed m

/-- The single-step status transitions the pipeline performs. -/
def statusEdge (a b : UploadStatus) : Prop :=
  (a = UploadStatus.Queued ∧ b = UploadStatus.Uploading)
  ∨ (a = UploadStatus.Uploading ∧ b = UploadStatus.Completed)
  ∨ (a = UploadStatus.Uploading ∧ ∃ m, b = UploadStatus.Failed m)

theorem UploadStatus.le_refl (a : UploadStatus) : UploadStatus.le a a := by
  cases a <;> simp [UploadStatus.le]

theorem UploadStatus.le_trans {a b c : UploadStatus}
    (hab : UploadStatus.le a b) (hbc : UploadStatus.le b c) :
    UploadStatus.le a c := by
  cases a <;> cases b <;> cases c <;>
    simp_all [UploadStatus.le]

theorem UploadStatus.le_of_edge {a b : UploadStatus} (h : statusEdge a b) :
    UploadStatus.le a b := by
  rcases h with ⟨ha, hb⟩ | ⟨ha, hb⟩ | ⟨ha, m, hb⟩ <;> subst ha <;> subst hb <;>
    simp [UploadStatus.le]

theorem UploadStatus.eq_queued_of_le_queued {a : UploadStatus}
    (h : UploadStatus.le a UploadStatus.Queued) : a = UploadStatus.Queued := by
  cases a <;> simp_all [UploadStatus.le]

theorem modifyFirstP_of_forall_neg {α : Type} (p : α → Bool) (f : α → α)
    (l : List α) (h : ∀ a ∈ l, ¬ p a = true) : modifyFirstP p f l = l := by
  induction l with
  | nil => rfl
  | cons x xs ih =>
    have hx : ¬ p x = true := h x (List.mem_cons_self x xs)
    simp [modifyFirstP, hx, ih (fun a ha => h a (List.mem_cons_of_mem x ha))]

theorem modifyFirstP_append {α : Type} (p : α → Bool) (f : α → α)
    (l₁ l₂ : List α) (a : α) (h₁ : ∀ b ∈ l₁, ¬ p b = true) (ha : p a = true) :
    modifyFirstP p f (l₁ ++ a :: l₂) = l₁ ++ f a :: l₂ := by
  induction l₁ with
  | nil => simp [modifyFirstP, ha]
  | cons x xs ih =>
    have hx : ¬ p x = true := h₁ x (List.mem_cons_self x xs)
    simp [modifyFirstP, hx, ih (fun b hb => h₁ b (List.mem_cons_of_mem x hb))]

theorem find?_decomp {α : Type} {p : α → Bool} {l : List α} {a : α}
    (h : l.find? p = some a) :
    ∃ l₁ l₂, l = l₁ ++ a :: l₂ ∧ (∀ b ∈ l₁, ¬ p b = true) ∧ p a = true := by
  induction l with
  | nil => simp [List.find?] at h
  | cons x xs ih =>
    by_cases hx : p x = true
    · refine ⟨[], xs, ?_, by simp, ?_⟩
      · simp only [List.find?, hx] at h
        simp_all
      · simp only [List.find?, hx] at h
        cases h
        exact hx
    · simp only [List.find?] at h
      rw [Bool.of_not_eq_true hx] at h
      obtain ⟨l₁, l₂, hl, hl₁, ha⟩ := ih h
      exact ⟨x :: l₁, l₂, by simp [hl], by
        intro b hb
        rcases List.mem_cons.mp hb with rfl | hb
        · exact hx
        · exact hl₁ b hb, ha⟩

theorem mem_modifyFirstP {α : Type} {p : α → Bool} {f : α → α} {l : List α}
    {b : α} (h : b ∈ modifyFirstP p f l) :
    b ∈ l ∨ ∃ a, l.find? p = some a ∧ b = f a := by
  induction l with
  | nil => simp [modifyFirstP] at h
  | cons x xs ih =>
    by_cases hx : p x = true
    · simp only [modifyFirstP, if_pos hx] at h
      rcases List.mem_cons.mp h with rfl | hb
      · exact Or.inr ⟨x, by simp [List.find?, hx], rfl⟩
      · exact Or.inl (List.mem_cons_of_mem x hb)
    · simp only [modifyFirstP, if_neg hx] at h
      rcases List.mem_cons.mp h with rfl | hb
      · exact Or.inl (List.mem_cons_self _ _)
      · rcases ih hb with hmem | ⟨a, hfind, rfl⟩
        · exact Or.inl (List.mem_cons_of_mem x hmem)
        · refine Or.inr ⟨a, ?_, rfl⟩
          simp [List.find?, Bool.of_not_eq_true hx, hfind]

theorem map_modifyFirstP {α β : Type} (p : α → Bool) (f : α → α) (g : α → β)
    (hg : ∀ a, g (f a) = g a) (l : List α) :
    (modifyFirstP p f l).map g = l.map g := by
  induction l with
  | nil => rfl
  | cons x xs ih =>
    by_cases hx : p x = true
    · simp [modifyFirstP, hx, hg]
    · simp [modifyFirstP, hx, ih]

theorem find?_eq_of_nodup_key {β : Type} (g : β → Nat) {l : List β}
    (hnd : (l.map g).Nodup) {x : β} (hx : x ∈ l) {id : Nat} (hid : g x = id) :
    l.find? (fun y => g y = id) = some x := by
  induction l with
  | nil => simp at hx
  | cons y ys ih =>
    rcases List.mem_cons.mp hx with rfl | hx2
    · simp [List.find?, hid]
    · by_cases hy : g y = id
      · exfalso
        have : g x ∈ ys.map g := List.mem_map_of_mem g hx2
        rw [hid, ← hy] at this
        exact (List.nodup_cons.mp (by simpa using hnd)).1 this
      · have : (decide (g y = id)) = false := by simp [hy]
        simp only [List.find?, this]
        exact ih (List.nodup_cons.mp (by simpa using hnd)).2 hx2

theorem get_item_by_id_modify_self (q : UploadQueue) (id : Nat)
    (f : UploadItem → UploadItem) (hf : ∀ x, (f x).id = x.id) :
    (q.modify_item_by_id id f).get_item_by_id id = (q.get_item_by_id id).map f := by
  show (modifyFirstP (fun item => item.id = id) f q.items).find?
      (fun item => item.id = id) = (q.items.find? (fun item => item.id = id)).map f
  induction q.items with
  | nil => rfl
  | cons x xs ih =>
    by_cases hx : x.id = id
    · have hb : (decide (x.id = id)) = true := by simp [hx]
      have hb2 : (decide ((f x).id = id)) = true := by simp [hf, hx]
      simp [modifyFirstP, List.find?, hb, hb2]
    · have hb : (decide (x.id = id)) = false := by simp [hx]
      simp only [modifyFirstP, hb, if_false, List.find?, hb, ih]

theorem modify_item_by_id_absent (q : UploadQueue) (id : Nat)
    (f : UploadItem → UploadItem) (h : ∀ a ∈ q.items, a.id ≠ id) :
    q.modify_item_by_id id f = q := by
  show UploadQueue.mk (modifyFirstP (fun item => item.id = id) f q.items)
      q.max_concurrent_uploads q.active_uploads = q
  rw [modifyFirstP_of_forall_neg]
  · intro a ha
    simp [h a ha]

theorem get_item_by_id_absent (q : UploadQueue) (id : Nat)
    (h : ∀ a ∈ q.items, a.id ≠ id) : q.get_item_by_id id = none := by
  apply List.find?_eq_none.mpr
  intro a ha
  simp [h a ha]

theorem get_item_by_id_of_nodup (q : UploadQueue) {a : UploadItem} {id : Nat}
    (hnd : (q.items.map UploadItem.id).Nodup) (ha : a ∈ q.items)
    (hid : a.id = id) : q.get_item_by_id id = some a :=
  find?_eq_of_nodup_key UploadItem.id hnd ha hid

theorem uamf_failure {transport : TransportResult} {p : FsPath}
    {mv : MoveOutcome} {e : String} (h : taskFailure transport p mv = some e)
    (ts : String) (iid : Nat) (fs : Fs) (q : UploadQueue) :
    upload_and_move_file transport mv ts p iid fs q = (Except.error e, fs, q) := by
  unfold taskFailure at h
  unfold upload_and_move_file
  cases htr : upload_photo transport with
  | error m => simp [htr] at h ⊢; exact h
  | ok resp =>
    simp only [htr] at h ⊢
    cases hb : p.base with
    | none => simp [hb] at h ⊢; exact h
    | some b =>
      simp only [hb] at h ⊢
      cases mv with
      | err m => simp at h ⊢; exact h
      | ok => simp at h

theorem uamf_success {transport : TransportResult} {p : FsPath}
    {mv : MoveOutcome} (h : taskFailure transport p mv = none)
    (ts : String) (iid : Nat) (fs : Fs) (q : UploadQueue) :
    ∃ resp b, upload_photo transport = Except.ok resp ∧ p.base = some b
      ∧ mv = MoveOutcome.ok
      ∧ upload_and_move_file transport mv ts p iid fs q
          = (Except.ok resp, moveFs fs b ts,
             q.modify_item_by_id iid (fun it => { it with progress := ratPt9 })) := by
  unfold taskFailure at h
  cases htr : upload_photo transport with
  | error m => simp [htr] at h
  | ok resp =>
    simp only [htr] at h
    cases hb : p.base with
    | none => simp [hb] at h
    | some b =>
      simp only [hb] at h
      cases mv with
      | err m => simp at h
      | ok =>
        exact ⟨resp, b, rfl, rfl, rfl, by unfold upload_and_move_file; simp [htr, hb]⟩

/-- The item `add_file` constructs and appends in the non-duplicate case. -/
def addedItem (freshId : Nat) (p : FsPath) (now : Nat)
    (thumb : Option (List Nat)) : UploadItem :=
  { UploadItem.new freshId p now with thumbnail_data := thumb }

theorem add_file_dup {q : UploadQueue} {p : FsPath}
    (h : (q.items.any (fun item => item.file_path = p)) = true)
    (freshId now : Nat) (thumb : Option (List Nat)) :
    q.add_file p freshId now thumb = (none, q) := by
  simp [UploadQueue.add_file, h]

theorem add_file_fresh {q : UploadQueue} {p : FsPath}
    (h : ¬ (q.items.any (fun item => item.file_path = p)) = true)
    (freshId now : Nat) (thumb : Option (List Nat)) :
    q.add_file p freshId now thumb
      = (some freshId, { q with items := q.items ++ [addedItem freshId p now thumb] }) := by
  simp [UploadQueue.add_file, h, addedItem, UploadItem.new]

theorem stepE_addFile_dup {s : SysState} {p : FsPath}
    (h : (s.queue.items.any (fun item => item.file_path = p)) = true)
    (now : Nat) (thumb : Option (List Nat)) :
    stepE s (Event.addFile p now thumb) = s := by
  simp [stepE, add_file_dup h]

theorem stepE_addFile_fresh {s : SysState} {p : FsPath}
    (h : ¬ (s.queue.items.any (fun item => item.file_path = p)) = true)
    (now : Nat) (thumb : Option (List Nat)) :
    stepE s (Event.addFile p now thumb)
      = { s with
          queue := { s.queue with
            items := s.queue.items ++ [addedItem s.nextId p now thumb] }
          nextId := s.nextId + 1 } := by
  simp [stepE, add_file_fresh h]

theorem stepE_tick_none {s : SysState}
    (hq : s.queue.get_next_queued_item = none) (now : Nat) :
    stepE s (Event.tick now) = s := by
  simp [stepE, hq]

theorem stepE_tick_some {s : SysState} {item : UploadItem}
    (hq : s.queue.get_next_queued_item = some item) (now : Nat) :
    stepE s (Event.tick now)
      = { s with
          queue := { s.queue with
            items := modifyFirstP (fun it => it.status = UploadStatus.Queued)
              (fun it => it.start_upload now) s.queue.items }
          pending := s.pending ++ [(item.id, item.file_path)] } := by
  simp [stepE, hq]

theorem stepE_finish_none {s : SysState} {id : Nat}
    (hq : s.pending.find? (fun pr => pr.1 = id) = none)
    (transport : TransportResult) (mv : MoveOutcome) (ts : String) (now : Nat) :
    stepE s (Event.finish id transport mv ts now) = s := by
  simp [stepE, hq]

theorem stepE_finish_err {s : SysState} {id : Nat} {pr : Nat × FsPath}
    (hq : s.pending.find? (fun x => x.1 = id) = some pr)
    {transport : TransportResult} {mv : MoveOutcome} {e : String}
    (hfail : taskFailure transport pr.2 mv = some e) (ts : String) (now : Nat) :
    stepE s (Event.finish id transport mv ts now)
      = { s with
          queue := s.queue.modify_item_by_id id
            (fun it => it.fail_upload ("Upload failed: " ++ e) now)
          pending := s.pending.eraseP (fun x => x.1 = id) } := by
  simp [stepE, hq, uamf_failure hfail]

theorem stepE_finish_ok {s : SysState} {id : Nat} {pr : Nat × FsPath}
    (hq : s.pending.find? (fun x => x.1 = id) = some pr)
    {transport : TransportResult} {mv : MoveOutcome}
    (hok : taskFailure transport pr.2 mv = none) (ts : String) (now : Nat) :
    ∃ b, pr.2.base = some b
      ∧ stepE s (Event.finish id transport mv ts now)
        = { s with
            queue := (s.queue.modify_item_by_id id
                (fun it => { it with progress := ratPt9 })).modify_item_by_id id
              (fun it => it.complete_upload now)
            fs := moveFs s.fs b ts
            pending := s.pending.eraseP (fun x => x.1 = id) } := by
  obtain ⟨resp, b, htr, hb, hmv, heq⟩ := uamf_success hok ts id s.fs s.queue
  exact ⟨b, hb, by simp [stepE, hq, heq]⟩

/-- The state invariant the pipeline maintains: item ids and in-flight task
ids are below the fresh-id source, in-flight task ids are pairwise distinct,
an item with an in-flight task is `Uploading`, and the queue lists items in
strictly increasing id order (ids are handed out in insertion order). -/
structure SysInv (s : SysState) : Prop where
  ids_lt : ∀ a ∈ s.queue.items, a.id < s.nextId
  pending_lt : ∀ pr ∈ s.pending, pr.1 < s.nextId
  pending_nodup : (s.pending.map Prod.fst).Nodup
  pending_uploading : ∀ pr ∈ s.pending, ∀ a ∈ s.queue.items,
    a.id = pr.1 → a.status = UploadStatus.Uploading
  ids_sorted : List.Pairwise (· < ·) (s.queue.items.map UploadItem.id)

theorem SysInv.ids_nodup {s : SysState} (h : SysInv s) :
    (s.queue.items.map UploadItem.id).Nodup :=
  h.ids_sorted.imp (fun hab => Nat.ne_of_lt hab)

theorem SysInv.mem_id_inj {s : SysState} (h : SysInv s) {a b : UploadItem}
    (ha : a ∈ s.queue.items) (hb : b ∈ s.queue.items) (hid : a.id = b.id) :
    a = b :=
  List.inj_on_of_nodup_map h.ids_nodup ha hb hid

theorem SysInv_init (fs : Fs) : SysInv (SysState.init fs) := by
  constructor <;> simp [SysState.init, UploadQueue.new]

theorem eraseP_decomp {α : Type} (p : α → Bool) (l₁ l₂ : List α) (a : α)
    (h₁ : ∀ b ∈ l₁, ¬ p b = true) (ha : p a = true) :
    (l₁ ++ a :: l₂).eraseP p = l₁ ++ l₂ := by
  induction l₁ with
  | nil => simp [List.eraseP_cons, ha]
  | cons x xs ih =>
    have hx : ¬ p x = true := h₁ x (List.mem_cons_self x xs)
    simp only [List.cons_append, List.eraseP_cons, hx, Bool.false_eq_true,
      not_false_eq_true, Bool.of_not_eq_true hx, cond_false]
    rw [ih (fun b hb => h₁ b (List.mem_cons_of_mem x hb))]

theorem SysInv_of_items_sublist {s : SysState} (h : SysInv s)
    (items' : List UploadItem) (hsub : List.Sublist items' s.queue.items) :
    SysInv { s with queue := { s.queue with items := items' } } := by
  constructor
  · intro a ha
    exact h.ids_lt a (hsub.subset ha)
  · exact h.pending_lt
  · exact h.pending_nodup
  · intro pr hpr a ha hid
    exact h.pending_uploading pr hpr a (hsub.subset ha) hid
  · exact h.ids_sorted.sublist (hsub.map UploadItem.id)

theorem SysInv_step_addFile {s : SysState} (h : SysInv s) (p : FsPath)
    (now : Nat) (thumb : Option (List Nat)) :
    SysInv (stepE s (Event.addFile p now thumb)) := by
  by_cases hd : (s.queue.items.any (fun item => item.file_path = p)) = true
  · rw [stepE_addFile_dup hd]; exact h
  · rw [stepE_addFile_fresh hd]
    constructor
    · intro a ha
      rcases List.mem_append.mp ha with ha | ha
      · exact Nat.lt_succ_of_lt (h.ids_lt a ha)
      · have : a = addedItem s.nextId p now thumb := by simpa using ha
        subst this
        exact Nat.lt_succ_self _
    · intro pr hpr
      exact Nat.lt_succ_of_lt (h.pending_lt pr hpr)
    · exact h.pending_nodup
    · intro pr hpr a ha hid
      rcases List.mem_append.mp ha with ha | ha
      · exact h.pending_uploading pr hpr a ha hid
      · have ha2 : a = addedItem s.nextId p now thumb := by simpa using ha
        subst ha2
        have h1 : pr.1 < s.nextId := h.pending_lt pr hpr
        have h2 : (addedItem s.nextId p now thumb).id = s.nextId := rfl
        omega
    · rw [List.map_append, List.pairwise_append]
      refine ⟨h.ids_sorted, by simp, ?_⟩
      intro x hx y hy
      have hy2 : y = s.nextId := by
        simpa [addedItem, UploadItem.new] using hy
      subst hy2
      obtain ⟨a, ha, rfl⟩ := List.mem_map.mp hx
      exact h.ids_lt a ha

theorem claimed_id_not_pending {s : SysState} (h : SysInv s)
    {item : UploadItem} (hq : s.queue.get_next_queued_item = some item) :
    item.id ∉ s.pending.map Prod.fst := by
  intro hc
  obtain ⟨pr, hpr, hprid⟩ := List.mem_map.mp hc
  have hq2 : s.queue.items.find?
      (fun it => it.status = UploadStatus.Queued) = some item := hq
  have hmem : item ∈ s.queue.items := List.mem_of_find?_eq_some hq2
  have hup : item.status = UploadStatus.Uploading :=
    h.pending_uploading pr hpr item hmem hprid.symm
  have hqd : item.status = UploadStatus.Queued := by
    simpa using List.find?_some hq2
  rw [hqd] at hup
  exact UploadStatus.noConfusion hup

theorem SysInv_step_tick {s : SysState} (h : SysInv s) (now : Nat) :
    SysInv (stepE s (Event.tick now)) := by
  cases hq : s.queue.get_next_queued_item with
  | none => rw [stepE_tick_none hq]; exact h
  | some item =>
    rw [stepE_tick_some hq now]
    have hq2 : s.queue.items.find?
        (fun it => it.status = UploadStatus.Queued) = some item := hq
    have hpd := claimed_id_not_pending h hq
    have hmem : item ∈ s.queue.items := List.mem_of_find?_eq_some hq2
    have hmap : (modifyFirstP (fun it => it.status = UploadStatus.Queued)
        (fun it => it.start_upload now) s.queue.items).map UploadItem.id
        = s.queue.items.map UploadItem.id :=
      map_modifyFirstP (fun it => it.status = UploadStatus.Queued)
        (fun it => it.start_upload now) UploadItem.id (fun a => rfl) s.queue.items
    obtain ⟨l₁, l₂, hdec, hpre, hpit⟩ := find?_decomp hq2
    have hmod : modifyFirstP (fun it => it.status = UploadStatus.Queued)
        (fun it => it.start_upload now) s.queue.items
        = l₁ ++ item.start_upload now :: l₂ := by
      rw [hdec]
      exact modifyFirstP_append _ _ l₁ l₂ item hpre hpit
    have hmapdec : s.queue.items.map UploadItem.id
        = l₁.map UploadItem.id ++ item.id :: l₂.map UploadItem.id := by
      rw [hdec]; simp
    have hnd : (l₁.map UploadItem.id ++ item.id :: l₂.map UploadItem.id).Nodup := by
      rw [← hmapdec]; exact h.ids_nodup
    constructor
    · intro a ha
      have : a.id ∈ s.queue.items.map UploadItem.id := by
        rw [← hmap]
        exact List.mem_map_of_mem UploadItem.id ha
      obtain ⟨b, hb, hbid⟩ := List.mem_map.mp this
      rw [← hbid]
      exact h.ids_lt b hb
    · intro pr hpr
      rcases List.mem_append.mp hpr with hpr | hpr
      · exact h.pending_lt pr hpr
      · have : pr = (item.id, item.file_path) := by simpa using hpr
        subst this
        exact h.ids_lt item hmem
    · rw [List.map_append]
      refine (List.nodup_append).mpr ⟨h.pending_nodup, by simp, ?_⟩
      intro x hx
      simp only [List.map_cons, List.map_nil, List.mem_singleton]
      intro hx2
      rw [hx2] at hx
      exact hpd hx
    · intro pr hpr a ha hid
      rw [hmod] at ha
      rcases List.mem_append.mp hpr with hpr | hpr
      · -- an old in-flight task: its id differs from the claimed one
        have hne : pr.1 ≠ item.id := by
          intro hcon
          exact hpd (hcon ▸ List.mem_map_of_mem Prod.fst hpr)
        rcases List.mem_append.mp ha with ha | ha
        · exact h.pending_uploading pr hpr a (by rw [hdec]; exact List.mem_append_left _ ha) hid
        · rcases List.mem_cons.mp ha with rfl | ha
          · rfl
          · exact h.pending_uploading pr hpr a
              (by rw [hdec]; exact List.mem_append_right _ (List.mem_cons_of_mem _ ha)) hid
      · -- the freshly spawned task: only the started item carries its id
        have hpr2 : pr = (item.id, item.file_path) := by simpa using hpr
        subst hpr2
        rcases List.mem_append.mp ha with ha | ha
        · exfalso
          have hxa : a.id ∈ l₁.map UploadItem.id := List.mem_map_of_mem UploadItem.id ha
          have hdisj := List.disjoint_of_nodup_append hnd
          exact hdisj hxa (by simp [hid])
        · rcases List.mem_cons.mp ha with rfl | ha
          · rfl
          · exfalso
            have hnd2 : (item.id :: l₂.map UploadItem.id).Nodup :=
              (List.nodup_append.mp hnd).2.1
            have : item.id ∈ l₂.map UploadItem.id := by
              have := List.mem_map_of_mem UploadItem.id ha
              simpa [hid] using this
            exact (List.nodup_cons.mp hnd2).1 this
    · have : (l₁ ++ item.start_upload now :: l₂).map UploadItem.id
          = s.queue.items.map UploadItem.id := by
        rw [← hmod, hmap]
      rw [hmod, this]
      exact h.ids_sorted

theorem map_modify_item_by_id (q : UploadQueue) (id : Nat)
    (f : UploadItem → UploadItem) (hf : ∀ x, (f x).id = x.id) :
    (q.modify_item_by_id id f).items.map UploadItem.id
      = q.items.map UploadItem.id := by
  show (modifyFirstP (fun item => item.id = id) f q.items).map UploadItem.id
      = q.items.map UploadItem.id
  exact map_modifyFirstP (fun item => item.id = id) f UploadItem.id hf q.items

theorem mem_modify_item_by_id_ne (q : UploadQueue) (id : Nat)
    (f : UploadItem → UploadItem) (hf : ∀ x, (f x).id = x.id)
    {a : UploadItem} (ha : a ∈ (q.modify_item_by_id id f).items)
    (hne : a.id ≠ id) : a ∈ q.items := by
  rcases mem_modifyFirstP ha with hmem | ⟨c, hfind, rfl⟩
  · exact hmem
  · exfalso
    have : c.id = id := by simpa using List.find?_some hfind
    exact hne ((hf c).trans this)

theorem SysInv_modify_finish {s : SysState} (h : SysInv s) {id : Nat}
    {pending' : List (Nat × FsPath)}
    (hsubP : List.Sublist pending' s.pending)
    (hne : ∀ pr2 ∈ pending', pr2.1 ≠ id)
    (q' : UploadQueue)
    (hq'map : q'.items.map UploadItem.id = s.queue.items.map UploadItem.id)
    (hq'mem : ∀ a ∈ q'.items, a.id ≠ id → a ∈ s.queue.items)
    (fs' : Fs) :
    SysInv { s with queue := q', fs := fs', pending := pending' } := by
  constructor
  · intro a ha
    have : a.id ∈ s.queue.items.map UploadItem.id := by
      rw [← hq'map]
      exact List.mem_map_of_mem UploadItem.id ha
    obtain ⟨b, hb, hbid⟩ := List.mem_map.mp this
    rw [← hbid]
    exact h.ids_lt b hb
  · intro pr hpr
    exact h.pending_lt pr (hsubP.subset hpr)
  · exact h.pending_nodup.sublist (hsubP.map Prod.fst)
  · intro pr hpr a ha hid
    have hane : a.id ≠ id := by
      rw [hid]
      exact hne pr hpr
    exact h.pending_uploading pr (hsubP.subset hpr) a (hq'mem a ha hane) hid
  · exact hq'map ▸ h.ids_sorted

theorem SysInv_step_finish {s : SysState} (h : SysInv s) (id : Nat)
    (transport : TransportResult) (mv : MoveOutcome) (ts : String) (now : Nat) :
    SysInv (stepE s (Event.finish id transport mv ts now)) := by
  cases hq : s.pending.find? (fun pr => pr.1 = id) with
  | none => rw [stepE_finish_none hq]; exact h
  | some pr =>
    have hprid : pr.1 = id := by simpa using List.find?_some hq
    obtain ⟨P₁, P₂, hdec, hpre, hpq⟩ := find?_decomp hq
    have herase : s.pending.eraseP (fun x => x.1 = id) = P₁ ++ P₂ := by
      rw [hdec]
      exact eraseP_decomp _ P₁ P₂ pr hpre hpq
    have hmapP : s.pending.map Prod.fst
        = P₁.map Prod.fst ++ id :: P₂.map Prod.fst := by
      rw [hdec]; simp [hprid]
    have hndP : (P₁.map Prod.fst ++ id :: P₂.map Prod.fst).Nodup := by
      rw [← hmapP]; exact h.pending_nodup
    have hsubP : List.Sublist (P₁ ++ P₂) s.pending := by
      rw [hdec]
      exact (List.sublist_cons_self pr P₂).append_left P₁
    have hne : ∀ pr2 ∈ P₁ ++ P₂, pr2.1 ≠ id := by
      intro pr2 hpr2
      rcases List.mem_append.mp hpr2 with hpr2 | hpr2
      · intro hcon
        exact hpre pr2 hpr2 (by simpa using hcon)
      · intro hcon
        have hnd2 : (id :: P₂.map Prod.fst).Nodup :=
          (List.nodup_append.mp hndP).2.1
        exact (List.nodup_cons.mp hnd2).1
          (hcon ▸ List.mem_map_of_mem Prod.fst hpr2)
    cases htf : taskFailure transport pr.2 mv with
    | some e =>
      rw [stepE_finish_err hq htf ts now, herase]
      exact SysInv_modify_finish h hsubP hne _
        (map_modify_item_by_id s.queue id
          (fun it => it.fail_upload ("Upload failed: " ++ e) now) (fun x => rfl))
        (fun a ha hane => mem_modify_item_by_id_ne s.queue id
          (fun it => it.fail_upload ("Upload failed: " ++ e) now) (fun x => rfl) ha hane)
        s.fs
    | none =>
      obtain ⟨b, hb, heq⟩ := stepE_finish_ok hq htf ts now
      rw [heq, herase]
      refine SysInv_modify_finish h hsubP hne _ ?_ ?_ (moveFs s.fs b ts)
      · rw [map_modify_item_by_id _ id (fun it => it.complete_upload now) (fun x => rfl),
          map_modify_item_by_id s.queue id
            (fun it => { it with progress := ratPt9 }) (fun x => rfl)]
      · intro a ha hane
        exact mem_modify_item_by_id_ne s.queue id
          (fun it => { it with progress := ratPt9 }) (fun x => rfl)
          (mem_modify_item_by_id_ne _ id
            (fun it => it.complete_upload now) (fun x => rfl) ha hane) hane

theorem remove_item_snd_shape (q : UploadQueue) (id : Nat) :
    ∃ items', (q.remove_item id).2 = { q with items := items' }
      ∧ List.Sublist items' q.items := by
  unfold UploadQueue.remove_item
  cases hf : q.items.findIdx? (fun item => item.id = id) with
  | none => exact ⟨q.items, rfl, List.Sublist.refl _⟩
  | some i => exact ⟨q.items.eraseIdx i, rfl, List.eraseIdx_sublist q.items i⟩

theorem SysInv_step {s : SysState} (h : SysInv s) (e : Event) :
    SysInv (stepE s e) := by
  cases e with
  | addFile p now thumb => exact SysInv_step_addFile h p now thumb
  | tick now => exact SysInv_step_tick h now
  | finish id transport mv ts now => exact SysInv_step_finish h id transport mv ts now
  | removeItem id =>
    obtain ⟨items', heq, hsub⟩ := remove_item_snd_shape s.queue id
    show SysInv { s with queue := (s.queue.remove_item id).2 }
    rw [heq]
    exact SysInv_of_items_sublist h items' hsub
  | clearCompleted =>
    exact SysInv_of_items_sublist h _ (List.filter_sublist s.queue.items)
  | clearFailed =>
    exact SysInv_of_items_sublist h _ (List.filter_sublist s.queue.items)
  | clearAll =>
    exact SysInv_of_items_sublist h [] (List.nil_sublist s.queue.items)

theorem SysInv_run {s : SysState} (h : SysInv s) (es : List Event) :
    SysInv (run s es) := by
  induction es generalizing s with
  | nil => exact h
  | cons e es ih => exact ih (SysInv_step h e)

theorem reachable_sysInv {s : SysState} (h : Reachable s) : SysInv s := by
  obtain ⟨fs, es, rfl⟩ := h
  exact SysInv_run (SysInv_init fs) es

theorem nextId_mono (s : SysState) (e : Event) :
    s.nextId ≤ (stepE s e).nextId := by
  cases e with
  | addFile p now thumb =>
    by_cases hd : (s.queue.items.any (fun item => item.file_path = p)) = true
    · rw [stepE_addFile_dup hd]
    · rw [stepE_addFile_fresh hd]
      exact Nat.le_succ _
  | tick now =>
    cases hq : s.queue.get_next_queued_item with
    | none => rw [stepE_tick_none hq]
    | some item => rw [stepE_tick_some hq now]
  | finish id transport mv ts now =>
    cases hq : s.pending.find? (fun pr => pr.1 = id) with
    | none => rw [stepE_finish_none hq]
    | some pr =>
      cases htf : taskFailure transport pr.2 mv with
      | some e => rw [stepE_finish_err hq htf ts now]
      | none =>
        obtain ⟨b, hb, heq⟩ := stepE_finish_ok hq htf ts now
        rw [heq]
  | removeItem id => exact Nat.le_refl _
  | clearCompleted => exact Nat.le_refl _
  | clearFailed => exact Nat.le_refl _
  | clearAll => exact Nat.le_refl _

theorem step_origin {s : SysState} (h : SysInv s) (e : Event) {b : UploadItem}
    (hb : b ∈ (stepE s e).queue.items) (hlt : b.id < s.nextId) :
    ∃ a ∈ s.queue.items, a.id = b.id
      ∧ (b.status = a.status ∨ statusEdge a.status b.status) := by
  cases e with
  | addFile p now thumb =>
    by_cases hd : (s.queue.items.any (fun item => item.file_path = p)) = true
    · rw [stepE_addFile_dup hd] at hb
      exact ⟨b, hb, rfl, Or.inl rfl⟩
    · rw [stepE_addFile_fresh hd] at hb
      rcases List.mem_append.mp hb with hb | hb
      · exact ⟨b, hb, rfl, Or.inl rfl⟩
      · exfalso
        have : b = addedItem s.nextId p now thumb := by simpa using hb
        subst this
        exact Nat.lt_irrefl _ hlt
  | tick now =>
    cases hq : s.queue.get_next_queued_item with
    | none =>
      rw [stepE_tick_none hq] at hb
      exact ⟨b, hb, rfl, Or.inl rfl⟩
    | some item =>
      rw [stepE_tick_some hq now] at hb
      rcases mem_modifyFirstP hb with hmem | ⟨c, hfind, rfl⟩
      · exact ⟨b, hmem, rfl, Or.inl rfl⟩
      · have hcq : c.status = UploadStatus.Queued := by
          simpa using List.find?_some hfind
        exact ⟨c, List.mem_of_find?_eq_some hfind, rfl,
          Or.inr (Or.inl ⟨hcq, rfl⟩)⟩
  | finish id transport mv ts now =>
    cases hq : s.pending.find? (fun pr => pr.1 = id) with
    | none =>
      rw [stepE_finish_none hq] at hb
      exact ⟨b, hb, rfl, Or.inl rfl⟩
    | some pr =>
      have hprid : pr.1 = id := by simpa using List.find?_some hq
      have hprmem : pr ∈ s.pending := List.mem_of_find?_eq_some hq
      cases htf : taskFailure transport pr.2 mv with
      | some e =>
        rw [stepE_finish_err hq htf ts now] at hb
        rcases mem_modifyFirstP hb with hmem | ⟨c, hfind, rfl⟩
        · exact ⟨b, hmem, rfl, Or.inl rfl⟩
        · have hcid : c.id = id := by simpa using List.find?_some hfind
          have hcmem : c ∈ s.queue.items := List.mem_of_find?_eq_some hfind
          have hcup : c.status = UploadStatus.Uploading :=
            h.pending_uploading pr hprmem c hcmem (hcid.trans hprid.symm)
          exact ⟨c, hcmem, rfl, Or.inr (Or.inr (Or.inr ⟨hcup, _, rfl⟩))⟩
      | none =>
        obtain ⟨fb, hfb, heq⟩ := stepE_finish_ok hq htf ts now
        rw [heq] at hb
        rcases mem_modifyFirstP hb with hmid | ⟨c1, hfind1, rfl⟩
        · rcases mem_modifyFirstP hmid with hmem | ⟨c, hfind, rfl⟩
          · exact ⟨b, hmem, rfl, Or.inl rfl⟩
          · exact ⟨c, List.mem_of_find?_eq_some hfind, rfl, Or.inl rfl⟩
        · have hc1id : c1.id = id := by simpa using List.find?_some hfind1
          have hc1mem := List.mem_of_find?_eq_some hfind1
          rcases mem_modifyFirstP hc1mem with hmem | ⟨c2, hfind2, rfl⟩
          · have hup : c1.status = UploadStatus.Uploading :=
              h.pending_uploading pr hprmem c1 hmem (hc1id.trans hprid.symm)
            exact ⟨c1, hmem, rfl, Or.inr (Or.inr (Or.inl ⟨hup, rfl⟩))⟩
          · have hc2id : c2.id = id := by simpa using List.find?_some hfind2
            have hc2mem : c2 ∈ s.queue.items := List.mem_of_find?_eq_some hfind2
            have hup : c2.status = UploadStatus.Uploading :=
              h.pending_uploading pr hprmem c2 hc2mem (hc2id.trans hprid.symm)
            exact ⟨c2, hc2mem, hc2id.trans hc1id.symm,
              Or.inr (Or.inr (Or.inl ⟨hup, rfl⟩))⟩
  | removeItem id =>
    obtain ⟨items', hsh, hsub⟩ := remove_item_snd_shape s.queue id
    have hb2 : b ∈ (s.queue.remove_item id).2.items := hb
    rw [hsh] at hb2
    exact ⟨b, hsub.subset hb2, rfl, Or.inl rfl⟩
  | clearCompleted =>
    exact ⟨b, (List.filter_sublist s.queue.items).subset hb, rfl, Or.inl rfl⟩
  | clearFailed =>
    exact ⟨b, (List.filter_sublist s.queue.items).subset hb, rfl, Or.inl rfl⟩
  | clearAll => simp [stepE, UploadQueue.clear_all] at hb

theorem run_origin {s : SysState} (h : SysInv s) (es : List Event)
    {b : UploadItem} (hb : b ∈ (run s es).queue.items) (hlt : b.id < s.nextId) :
    ∃ a ∈ s.queue.items, a.id = b.id ∧ UploadStatus.le a.status b.status := by
  induction es generalizing s with
  | nil => exact ⟨b, hb, rfl, UploadStatus.le_refl _⟩
  | cons e es ih =>
    have h2 := SysInv_step h e
    have hb2 : b ∈ (run (stepE s e) es).queue.items := hb
    have hlt2 : b.id < (stepE s e).nextId := Nat.lt_of_lt_of_le hlt (nextId_mono s e)
    obtain ⟨a2, ha2, haid2, hle2⟩ := ih h2 hb2 hlt2
    have hlt3 : a2.id < s.nextId := haid2 ▸ hlt
    obtain ⟨a, ha, haid, hor⟩ := step_origin h e ha2 hlt3
    refine ⟨a, ha, haid.trans haid2, UploadStatus.le_trans ?_ hle2⟩
    rcases hor with heqst | hedge
    · rw [heqst]
      exact UploadStatus.le_refl _
    · exact UploadStatus.le_of_edge hedge

theorem no_claim_of_ne_queued {s : SysState} (h : SysInv s) {a : UploadItem}
    (ha : a ∈ s.queue.items) (hst : a.status ≠ UploadStatus.Queued)
    (es : List Event) {b : UploadItem}
    (hb : (run s es).queue.get_next_queued_item = some b) : b.id ≠ a.id := by
  intro heq
  have hb2 : (run s es).queue.items.find?
      (fun it => it.status = UploadStatus.Queued) = some b := hb
  have hbq : b.status = UploadStatus.Queued := by
    simpa using List.find?_some hb2
  have hbmem : b ∈ (run s es).queue.items := List.mem_of_find?_eq_some hb2
  have hlt : b.id < s.nextId := heq ▸ h.ids_lt a ha
  obtain ⟨a0, ha0, haid0, hle⟩ := run_origin h es hbmem hlt
  have : a0 = a := h.mem_id_inj ha0 ha (haid0.trans heq)
  subst this
  rw [hbq] at hle
  exact hst (UploadStatus.eq_queued_of_le_queued hle)

theorem find?_append_right {α : Type} (p : α → Bool) (l₁ l₂ : List α)
    (h : ∀ b ∈ l₁, ¬ p b = true) : (l₁ ++ l₂).find? p = l₂.find? p := by
  induction l₁ with
  | nil => rfl
  | cons x xs ih =>
    have hx : p x = false := Bool.of_not_eq_true (h x (List.mem_cons_self x xs))
    simp only [List.cons_append, List.find?, hx]
    exact ih (fun b hb => h b (List.mem_cons_of_mem x hb))

theorem status_count_partition (l : List UploadItem) :
    (l.filter (fun item => item.status = UploadStatus.Queued)).length
    + (l.filter (fun item => item.status = UploadStatus.Uploading)).length
    + (l.filter (fun item => item.status = UploadStatus.Completed)).length
    + (l.filter (fun item => match item.status with
        | UploadStatus.Failed _ => true
        | _ => false)).length = l.length := by
  induction l with
  | nil => rfl
  | cons x xs ih =>
    cases hx : x.status <;>
      simp only [List.filter_cons, hx] <;> simp <;> omega

/-!
## Concrete sample data used by the witness theorems
-/

def pW : FsPath := { dir := "/watch", base := some { stem := "img", ext := some "jpg" } }

def pW2 : FsPath := { dir := "/watch", base := some { stem := "pic", ext := some "png" } }

def fsW : Fs := { watch := [("img.jpg", 7), ("pic.png", 8)], uploaded := [("img.jpg", 3)] }

def respW : UploadResponse := { success := true, message := "ok", photo_id := some "ph1" }

/-!
## The claims
-/

/-- C8: for every queue state, `get_stats` returns counts derived by
scanning all items that satisfy
`queued + active + completed + failed = total`, with `total` the number of
items currently in the queue. -/
theorem stats_partition (q : UploadQueue) :
    q.get_stats.queued + q.get_stats.active + q.get_stats.completed
      + q.get_stats.failed = q.get_stats.total
    ∧ q.get_stats.total = q.items.length :=
  ⟨status_count_partition q.items, rfl⟩

/-- C7: `stop` flips `is_running` to `false` and changes nothing else on the
manager; the spawned tick loop works on the captured state, which carries no
reference to the flag, so every trace of pipeline events runs identically
before and after `stop`. -/
theorem stop_only_flips_flag (m : UploadManager) :
    m.stop.is_running = false
    ∧ m.stop = { m with is_running := false }
    ∧ (∀ pend fsS nid es,
        run { queue := m.stop.queue, pending := pend, fs := fsS, nextId := nid } es
          = run { queue := m.queue, pending := pend, fs := fsS, nextId := nid } es) :=
  ⟨rfl, rfl, fun _ _ _ _ => rfl⟩

/-- C2: `add_file` is deduplicated on the source path alone — if any item,
whatever its status, already carries the path, the call returns `none` and
leaves the queue untouched; otherwise exactly one new `Queued` item with the
fresh id is appended at the back, whatever the thumbnail oracle returned. -/
theorem add_file_dedup (q : UploadQueue) (p : FsPath) (freshId now : Nat)
    (thumb : Option (List Nat)) :
    ((∃ a ∈ q.items, a.file_path = p) → q.add_file p freshId now thumb = (none, q))
    ∧ ((∀ a ∈ q.items, a.file_path ≠ p) →
        q.add_file p freshId now thumb
          = (some freshId,
             { q with items := q.items ++ [addedItem freshId p now thumb] })
        ∧ (addedItem freshId p now thumb).status = UploadStatus.Queued
        ∧ (addedItem freshId p now thumb).id = freshId
        ∧ (addedItem freshId p now thumb).file_path = p
        ∧ (addedItem freshId p now thumb).thumbnail_data = thumb) := by
  constructor
  · rintro ⟨a, ha, hap⟩
    exact add_file_dup (List.any_eq_true.mpr ⟨a, ha, decide_eq_true hap⟩)
      freshId now thumb
  · intro hall
    refine ⟨add_file_fresh ?_ freshId now thumb, rfl, rfl, rfl, rfl⟩
    intro hcon
    obtain ⟨a, ha, hap⟩ := List.any_eq_true.mp hcon
    exact hall a ha (of_decide_eq_true hap)

/-- Witness for C2: a duplicate insertion of `pW` is refused, a fresh
insertion into the empty queue succeeds with id `0`. -/
theorem add_file_dedup_witness :
    ((UploadQueue.new.add_file pW 0 0 none).2.add_file pW 1 1 (some [1, 2])
        = (none, (UploadQueue.new.add_file pW 0 0 none).2))
    ∧ UploadQueue.new.add_file pW 0 0 none
        = (some 0, { UploadQueue.new with
            items := UploadQueue.new.items ++ [addedItem 0 pW 0 none] }) := by
  constructor
  · exact (add_file_dedup (UploadQueue.new.add_file pW 0 0 none).2 pW 1 1
      (some [1, 2])).1 ⟨addedItem 0 pW 0 none, by decide, by decide⟩
  · exact ((add_file_dedup UploadQueue.new pW 0 0 none).2 (by decide)).1

/-- C10: completing or failing an id that is no longer in the queue is a
silent no-op — `get_item_by_id` finds nothing, a mutation through
`get_item_mut_by_id` changes nothing, and a whole `finish` of an in-flight
task whose item was removed leaves the queue exactly as it was. -/
theorem absent_id_silent_noop (s : SysState) (id : Nat)
    (h : ∀ a ∈ s.queue.items, a.id ≠ id) :
    s.queue.get_item_by_id id = none
    ∧ (∀ f, s.queue.modify_item_by_id id f = s.queue)
    ∧ (∀ transport mv ts now,
        (stepE s (Event.finish id transport mv ts now)).queue = s.queue) := by
  refine ⟨get_item_by_id_absent s.queue id h,
    fun f => modify_item_by_id_absent s.queue id f h, ?_⟩
  intro transport mv ts now
  cases hq : s.pending.find? (fun pr => pr.1 = id) with
  | none => rw [stepE_finish_none hq]
  | some pr =>
    cases htf : taskFailure transport pr.2 mv with
    | some e =>
      rw [stepE_finish_err hq htf ts now]
      exact modify_item_by_id_absent _ _ _ h
    | none =>
      obtain ⟨b, hb, heq⟩ := stepE_finish_ok hq htf ts now
      rw [heq]
      show (s.queue.modify_item_by_id id
        (fun it => { it with progress := ratPt9 })).modify_item_by_id id
          (fun it => it.complete_upload now) = s.queue
      rw [modify_item_by_id_absent s.queue id _ h]
      exact modify_item_by_id_absent s.queue id _ h

/-- A state whose queue has one item with id `0` and an in-flight task for
an id `99` that is no longer in the queue. -/
def sW10 : SysState :=
  { queue := (UploadQueue.new.add_file pW 0 0 none).2
    pending := [(99, pW2)], fs := fsW, nextId := 1 }

/-- Witness for C10: in `sW10`, lookups and mutations for the removed id
`99` find nothing and change nothing, and a successful `finish 99` leaves
the queue unchanged. -/
theorem absent_id_silent_noop_witness :
    sW10.queue.get_item_by_id 99 = none
    ∧ sW10.queue.modify_item_by_id 99 (fun it => it.complete_upload 5)
        = sW10.queue
    ∧ (stepE sW10 (Event.finish 99 (TransportResult.response respW)
        MoveOutcome.ok "20260101_000000" 7)).queue = sW10.queue := by
  refine ⟨?_, ?_, ?_⟩
  · exact (absent_id_silent_noop sW10 99 (by decide)).1
  · exact (absent_id_silent_noop sW10 99 (by decide)).2.1 _
  · exact (absent_id_silent_noop sW10 99 (by decide)).2.2 _ _ _ _

/-- C9: in every reachable state, `get_next_queued_item` returns the first
`Queued` item in queue order — which, ids being handed out in insertion
order and `add_file` appending at the back, is the earliest-inserted item
still `Queued` (least id among the `Queued` items) — and `none` exactly
when no item is `Queued`. -/
theorem fifo_claiming (s : SysState) (hs : Reachable s) :
    (∀ a, s.queue.get_next_queued_item = some a →
      a ∈ s.queue.items ∧ a.status = UploadStatus.Queued
      ∧ (∃ l₁ l₂, s.queue.items = l₁ ++ a :: l₂
          ∧ ∀ b ∈ l₁, b.status ≠ UploadStatus.Queued)
      ∧ ∀ b ∈ s.queue.items, b.status = UploadStatus.Queued → a.id ≤ b.id)
    ∧ (s.queue.get_next_queued_item = none →
        ∀ b ∈ s.queue.items, b.status ≠ UploadStatus.Queued) := by
  have hInv := reachable_sysInv hs
  constructor
  · intro a ha
    have ha2 : s.queue.items.find?
        (fun it => it.status = UploadStatus.Queued) = some a := ha
    obtain ⟨l₁, l₂, hdec, hpre, hpa⟩ := find?_decomp ha2
    have haq : a.status = UploadStatus.Queued := by simpa using hpa
    refine ⟨List.mem_of_find?_eq_some ha2, haq,
      ⟨l₁, l₂, hdec, fun b hb => by simpa using hpre b hb⟩, ?_⟩
    intro b hb hbq
    rw [hdec] at hb
    rcases List.mem_append.mp hb with hb | hb
    · exact absurd (decide_eq_true hbq) (hpre b hb)
    · rcases List.mem_cons.mp hb with rfl | hb
      · exact Nat.le_refl _
      · have hsorted := hInv.ids_sorted
        rw [hdec] at hsorted
        simp only [List.map_append, List.map_cons] at hsorted
        have hcons := (List.pairwise_append.mp hsorted).2.1
        have : a.id < b.id :=
          List.rel_of_pairwise_cons hcons (List.mem_map_of_mem UploadItem.id hb)
        exact Nat.le_of_lt this
  · intro hnone b hb hbq
    have h2 : ∀ x ∈ s.queue.items,
        ¬ ((fun it => decide (it.status = UploadStatus.Queued)) x = true) :=
      List.find?_eq_none.mp hnone
    exact h2 b hb (by simpa using decide_eq_true hbq)

/-- A reachable sample state: two files added, nothing claimed yet. -/
def sW9 : SysState :=
  run (SysState.init fsW) [Event.addFile pW 0 none, Event.addFile pW2 1 none]

/-- Witness for C9: in `sW9` the claimer returns the earlier-inserted
`Queued` item, whose id `0` is at most the id `1` of the later one. -/
theorem fifo_claiming_witness :
    addedItem 0 pW 0 none ∈ sW9.queue.items
    ∧ (addedItem 0 pW 0 none).status = UploadStatus.Queued
    ∧ (addedItem 0 pW 0 none).id ≤ (addedItem 1 pW2 1 none).id := by
  have h := (fifo_claiming sW9 ⟨fsW, _, rfl⟩).1 (addedItem 0 pW 0 none) (by decide)
  exact ⟨h.1, h.2.1, h.2.2.2 (addedItem 1 pW2 1 none) (by decide) (by decide)⟩

/-- C1: claiming is single-shot.  `get_next_queued_item` only ever returns
`Queued` items; the tick that claims an item flips it to `Uploading` through
`start_upload` in the same atomic step; and from any reachable state, once
an item's status has left `Queued`, no later `get_next_queued_item` — after
any further sequence of pipeline events — ever returns an item with its id,
so no two upload tasks are ever spawned for the same item. -/
theorem claim_single_shot :
    (∀ q a, UploadQueue.get_next_queued_item q = some a →
      a.status = UploadStatus.Queued)
    ∧ (∀ s now a, Reachable s → s.queue.get_next_queued_item = some a →
        (stepE s (Event.tick now)).queue.get_item_by_id a.id
          = some (a.start_upload now))
    ∧ (∀ s, Reachable s → ∀ a ∈ s.queue.items,
        a.status ≠ UploadStatus.Queued →
        ∀ es b, (run s es).queue.get_next_queued_item = some b → b.id ≠ a.id) := by
  refine ⟨?_, ?_, ?_⟩
  · intro q a ha
    have ha2 : q.items.find?
        (fun it => it.status = UploadStatus.Queued) = some a := ha
    simpa using List.find?_some ha2
  · intro s now a hs ha
    have hInv := reachable_sysInv hs
    have ha2 : s.queue.items.find?
        (fun it => it.status = UploadStatus.Queued) = some a := ha
    obtain ⟨l₁, l₂, hdec, hpre, hpa⟩ := find?_decomp ha2
    rw [stepE_tick_some ha now]
    show (modifyFirstP (fun it => it.status = UploadStatus.Queued)
        (fun it => it.start_upload now) s.queue.items).find?
        (fun it => it.id = a.id) = some (a.start_upload now)
    rw [hdec, modifyFirstP_append _ _ l₁ l₂ a hpre hpa]
    have hnd := hInv.ids_nodup
    rw [hdec] at hnd
    simp only [List.map_append, List.map_cons] at hnd
    have hdisj := List.disjoint_of_nodup_append hnd
    rw [find?_append_right]
    · have : ((a.start_upload now).id = a.id) := rfl
      simp [List.find?, this]
    · intro b hb hcon
      have hbid : b.id = a.id := by simpa using hcon
      exact hdisj (List.mem_map_of_mem UploadItem.id hb)
        (by rw [hbid]; exact List.mem_cons_self _ _)
  · intro s hs a ha hst es b hb
    exact no_claim_of_ne_queued (reachable_sysInv hs) ha hst es hb

/-- A reachable sample state: one file added and claimed by the first tick;
its item (id `0`) is `Uploading`. -/
def sW1 : SysState :=
  run (SysState.init fsW) [Event.addFile pW 0 none, Event.tick 1]

/-- Witness for C1: in `sW1` the claimed item is returned started, and after
a further add of a second file the claimer returns the new id `1`, not the
already claimed id `0`. -/
theorem claim_single_shot_witness :
    (stepE (run (SysState.init fsW) [Event.addFile pW 0 none])
        (Event.tick 1)).queue.get_item_by_id (addedItem 0 pW 0 none).id
      = some ((addedItem 0 pW 0 none).start_upload 1)
    ∧ (addedItem 1 pW2 2 none).id ≠ ((addedItem 0 pW 0 none).start_upload 1).id := by
  constructor
  · exact claim_single_shot.2.1 _ 1 _ ⟨fsW, _, rfl⟩ (by decide)
  · exact claim_single_shot.2.2 sW1 ⟨fsW, _, rfl⟩
      ((addedItem 0 pW 0 none).start_upload 1) (by decide) (by decide)
      [Event.addFile pW2 2 none] (addedItem 1 pW2 2 none) (by decide)

/-- C3: status transitions are monotonic.  Across any single pipeline event
an item's status is unchanged or moves along one edge of
`Queued → Uploading → {Completed, Failed}` (`statusEdge`), and across any
sequence of events it only moves forward in the `UploadStatus.le` order —
in particular no item ever re-enters `Queued` and no item observed
`Completed` or `Failed` ever changes status again. -/
theorem status_transitions_monotonic (s : SysState) (hs : Reachable s) :
    (∀ e a b, a ∈ s.queue.items → b ∈ (stepE s e).queue.items → b.id = a.id →
      b.status = a.status ∨ statusEdge a.status b.status)
    ∧ (∀ es a b, a ∈ s.queue.items → b ∈ (run s es).queue.items → b.id = a.id →
      UploadStatus.le a.status b.status) := by
  have hInv := reachable_sysInv hs
  constructor
  · intro e a b ha hb hid
    obtain ⟨a0, ha0, haid0, hor⟩ := step_origin hInv e hb
      (by rw [hid]; exact hInv.ids_lt a ha)
    have : a0 = a := hInv.mem_id_inj ha0 ha (haid0.trans hid)
    subst this
    exact hor
  · intro es a b ha hb hid
    obtain ⟨a0, ha0, haid0, hle⟩ := run_origin hInv es hb
      (by rw [hid]; exact hInv.ids_lt a ha)
    have : a0 = a := hInv.mem_id_inj ha0 ha (haid0.trans hid)
    subst this
    exact hle

/-- Witness for C3: in the reachable state with one queued file, the first
tick moves that item along the `Queued → Uploading` edge, and across the
whole trace its status only moved forward. -/
theorem status_transitions_monotonic_witness :
    ((addedItem 0 pW 0 none).start_upload 1).status
        = (addedItem 0 pW 0 none).status
      ∨ statusEdge (addedItem 0 pW 0 none).status
        ((addedItem 0 pW 0 none).start_upload 1).status := by
  exact (status_transitions_monotonic
      (run (SysState.init fsW) [Event.addFile pW 0 none]) ⟨fsW, _, rfl⟩).1
    (Event.tick 1) (addedItem 0 pW 0 none) ((addedItem 0 pW 0 none).start_upload 1)
    (by decide) (by decide) (by decide)

/-- C4: failure atomicity.  When the upload task of an in-flight item fails
at any step — transport error, service-reported failure or bad HTTP status
(all surfaced through `upload_photo`), missing file name, or failed
filesystem move (`taskFailure` enumerates exactly these) — the filesystem
is untouched, the item transitions to `Failed` carrying the formatted error
message with `completed_at` set and `progress` unchanged, and no later
`get_next_queued_item` ever returns its id again, so the item is never
retried. -/
theorem failure_atomicity (s : SysState) (hs : Reachable s)
    (id : Nat) (p : FsPath)
    (hfind : s.pending.find? (fun x => x.1 = id) = some (id, p))
    (a : UploadItem) (ha : a ∈ s.queue.items) (haid : a.id = id)
    (transport : TransportResult) (mv : MoveOutcome) (ts : String) (now : Nat)
    (e : String) (hfail : taskFailure transport p mv = some e) :
    (stepE s (Event.finish id transport mv ts now)).fs = s.fs
    ∧ (stepE s (Event.finish id transport mv ts now)).queue.get_item_by_id id
        = some (a.fail_upload ("Upload failed: " ++ e) now)
    ∧ (a.fail_upload ("Upload failed: " ++ e) now).status
        = UploadStatus.Failed ("Upload failed: " ++ e)
    ∧ (a.fail_upload ("Upload failed: " ++ e) now).completed_at = some now
    ∧ (a.fail_upload ("Upload failed: " ++ e) now).progress = a.progress
    ∧ ∀ es b,
        (run (stepE s (Event.finish id transport mv ts now)) es).queue.get_next_queued_item
          = some b → b.id ≠ id := by
  have hInv := reachable_sysInv hs
  have hstep := stepE_finish_err hfind hfail ts now
  have hget : (stepE s (Event.finish id transport mv ts now)).queue.get_item_by_id id
      = some (a.fail_upload ("Upload failed: " ++ e) now) := by
    rw [hstep]
    show (s.queue.modify_item_by_id id
        (fun it => it.fail_upload ("Upload failed: " ++ e) now)).get_item_by_id id
      = some (a.fail_upload ("Upload failed: " ++ e) now)
    rw [get_item_by_id_modify_self s.queue id
        (fun it => it.fail_upload ("Upload failed: " ++ e) now) (fun x => rfl),
      get_item_by_id_of_nodup s.queue hInv.ids_nodup ha haid]
    rfl
  refine ⟨by rw [hstep], hget, rfl, rfl, rfl, ?_⟩
  intro es b hb
  have hInv2 := SysInv_step hInv (Event.finish id transport mv ts now)
  have hmem : a.fail_upload ("Upload failed: " ++ e) now
      ∈ (stepE s (Event.finish id transport mv ts now)).queue.items :=
    List.mem_of_find?_eq_some hget
  have hne := no_claim_of_ne_queued hInv2 hmem (by
    show UploadStatus.Failed ("Upload failed: " ++ e) ≠ UploadStatus.Queued
    exact fun hcon => UploadStatus.noConfusion hcon) es hb
  intro hcon
  exact hne (by rw [hcon]; exact haid.symm)

/-- A service-reported failure body: `{success: false, message: "quota
exceeded"}`. -/
def respFailW : UploadResponse :=
  { success := false, message := "quota exceeded", photo_id := none }

/-- The claimed item of `sW1` (id `0`, `Uploading`). -/
def aW1 : UploadItem := (addedItem 0 pW 0 none).start_upload 1

/-- Witness for C4: in `sW1`, a finish whose body reports `quota exceeded`
leaves the filesystem untouched, marks item `0` failed with the formatted
message, keeps its progress, and a later claimer returns nothing for it. -/
theorem failure_atomicity_witness :
    (stepE sW1 (Event.finish 0 (TransportResult.response respFailW)
        MoveOutcome.ok "20260101_000000" 2)).fs = sW1.fs
    ∧ (stepE sW1 (Event.finish 0 (TransportResult.response respFailW)
        MoveOutcome.ok "20260101_000000" 2)).queue.get_item_by_id 0
      = some (aW1.fail_upload
          ("Upload failed: " ++ "API error: API returned error: quota exceeded") 2)
    ∧ (aW1.fail_upload
        ("Upload failed: " ++ "API error: API returned error: quota exceeded") 2).progress
      = aW1.progress := by
  have h := failure_atomicity sW1 ⟨fsW, _, rfl⟩ 0 pW (by decide) aW1 (by decide)
    (by decide) (TransportResult.response respFailW) MoveOutcome.ok
    "20260101_000000" 2 "API error: API returned error: quota exceeded" (by decide)
  exact ⟨h.1, h.2.1, h.2.2.2.2.1⟩

theorem finalName_collision (fs : Fs) (b : FileBase) (ts : String)
    (hcol : (fs.uploaded.lookup b.render).isSome = true) :
    finalName fs b ts = b.stem ++ "_" ++ ts ++ "." ++ b.ext.getD ""
    ∧ finalName fs b ts ≠ b.render := by
  have hfn : finalName fs b ts = b.stem ++ "_" ++ ts ++ "." ++ b.ext.getD "" := by
    simp [finalName, hcol]
  refine ⟨hfn, ?_⟩
  rw [hfn]
  intro hcon
  have h1 : "_".length = 1 := by decide
  have h2 : ".".length = 1 := by decide
  cases hext : b.ext with
  | some ext0 =>
    have hr : b.render = b.stem ++ "." ++ ext0 := by
      simp [FileBase.render, hext]
    rw [hr] at hcon
    have hg : b.ext.getD "" = ext0 := by simp [hext]
    rw [hg] at hcon
    have hlen := congrArg String.length hcon
    simp only [String.length_append, h1, h2] at hlen
    omega
  | none =>
    have hr : b.render = b.stem := by
      simp [FileBase.render, hext]
    rw [hr] at hcon
    have hlen := congrArg String.length hcon
    simp only [String.length_append, h1, h2] at hlen
    omega

/-- C6: collision-safe move.  When the upload succeeds and the target name
already exists in the uploaded folder, the file is moved under
`stem_<timestamp>.<extension>` instead — a name distinct from the colliding
one, so the existing file keeps its content under its name — the call
returns success rather than an error, and the completing `finish` still
drives the item to `Completed`. -/
theorem collision_safe_move (transport : TransportResult)
    (resp : UploadResponse) (htr : upload_photo transport = Except.ok resp)
    (p : FsPath) (b : FileBase) (hb : p.base = some b)
    (fs : Fs) (q : UploadQueue) (ts : String) (iid : Nat)
    (hcol : (fs.uploaded.lookup b.render).isSome = true) :
    (upload_and_move_file transport MoveOutcome.ok ts p iid fs q).1
        = Except.ok resp
    ∧ finalName fs b ts = b.stem ++ "_" ++ ts ++ "." ++ b.ext.getD ""
    ∧ finalName fs b ts ≠ b.render
    ∧ (upload_and_move_file transport MoveOutcome.ok ts p iid fs q).2.1.uploaded.lookup
        b.render = fs.uploaded.lookup b.render
    ∧ (∀ pend n a now,
        pend.find? (fun x => x.1 = iid) = some (iid, p) →
        a ∈ q.items → a.id = iid → (q.items.map UploadItem.id).Nodup →
        (stepE { queue := q, pending := pend, fs := fs, nextId := n }
            (Event.finish iid transport MoveOutcome.ok ts now)).queue.get_item_by_id iid
          = some (({ a with progress := ratPt9 }).complete_upload now)) := by
  have htf : taskFailure transport p MoveOutcome.ok = none := by
    simp [taskFailure, htr, hb]
  obtain ⟨resp2, b2, htr2, hb2, hmv2, heq⟩ := uamf_success htf ts iid fs q
  have hresp : resp2 = resp := by
    rw [htr] at htr2
    exact (Except.ok.inj htr2).symm
  have hb3 : b2 = b := by
    rw [hb] at hb2
    exact (Option.some.inj hb2).symm
  rw [hresp, hb3] at heq
  obtain ⟨hfn, hne⟩ := finalName_collision fs b ts hcol
  refine ⟨by rw [heq], hfn, hne, ?_, ?_⟩
  · rw [heq]
    show (moveFs fs b ts).uploaded.lookup b.render = fs.uploaded.lookup b.render
    have hbeq : (b.render == finalName fs b ts) = false :=
      beq_eq_false_iff_ne.mpr (Ne.symm hne)
    simp [moveFs, List.lookup, hbeq]
  · intro pend n a now hfind hmem hid hnd
    have hfind2 : ({ queue := q, pending := pend, fs := fs, nextId := n }
        : SysState).pending.find? (fun x => x.1 = iid) = some (iid, p) := hfind
    obtain ⟨b4, hb4, hstep⟩ := stepE_finish_ok hfind2 htf ts now
    rw [hstep]
    show ((q.modify_item_by_id iid (fun it => { it with progress := ratPt9 })).modify_item_by_id
        iid (fun it => it.complete_upload now)).get_item_by_id iid
      = some (({ a with progress := ratPt9 }).complete_upload now)
    rw [get_item_by_id_modify_self _ iid (fun it => it.complete_upload now) (fun x => rfl),
      get_item_by_id_modify_self q iid (fun it => { it with progress := ratPt9 })
        (fun x => rfl),
      get_item_by_id_of_nodup q hnd hmem hid]
    rfl

/-- The final path component of `pW`. -/
def bW : FileBase := { stem := "img", ext := some "jpg" }

/-- The components of `sW1`, reassembled (definitionally equal to `sW1`). -/
def sW6 : SysState :=
  { queue := sW1.queue, pending := sW1.pending, fs := fsW, nextId := sW1.nextId }

/-- Witness for C6: uploading `img.jpg` while `uploaded/img.jpg` exists
succeeds, moves under the timestamped name, keeps the old entry readable,
and completes item `0`. -/
theorem collision_safe_move_witness :
    (upload_and_move_file (TransportResult.response respW) MoveOutcome.ok
        "20260101_000000" pW 0 fsW sW1.queue).1 = Except.ok respW
    ∧ finalName fsW bW "20260101_000000" ≠ bW.render
    ∧ (upload_and_move_file (TransportResult.response respW) MoveOutcome.ok
        "20260101_000000" pW 0 fsW sW1.queue).2.1.uploaded.lookup bW.render
      = fsW.uploaded.lookup bW.render
    ∧ (stepE sW6 (Event.finish 0 (TransportResult.response respW)
        MoveOutcome.ok "20260101_000000" 3)).queue.get_item_by_id 0
      = some (({ aW1 with progress := ratPt9 }).complete_upload 3) := by
  have h := collision_safe_move (TransportResult.response respW) respW
    rfl pW bW rfl fsW sW1.queue "20260101_000000" 0 (by decide)
  exact ⟨h.1, h.2.2.1, h.2.2.2.1,
    h.2.2.2.2 sW1.pending sW1.nextId aW1 3 (by decide) (by decide) (by decide)
      (by decide)⟩

/-- Counterexample to C5 as stated: the claim places the `0.9` progress
write after the remote call but *before* the local move.  At a concrete
input where the remote call succeeds and the move then fails, the code
(`upload_and_move_file`) leaves the item's progress at `0.1` — the write
never ran — while the variant ordered as the claim describes
(`upload_and_move_file_specOrder`) leaves `0.9`.  The two behaviours
differ, so the claim's ordering is not the code's. -/
theorem progress_timing_counterexample :
    ((upload_and_move_file (TransportResult.response respW)
        (MoveOutcome.err "denied") "20260101_000000" pW 0 fsW
        sW1.queue).2.2.get_item_by_id 0).map UploadItem.progress = some ratPt1
    ∧ ((upload_and_move_file_specOrder (TransportResult.response respW)
        (MoveOutcome.err "denied") "20260101_000000" pW 0 fsW
        sW1.queue).2.2.get_item_by_id 0).map UploadItem.progress = some ratPt9
    ∧ ratPt1 = 1/10 ∧ ratPt9 = 9/10 ∧ ratPt1 ≠ ratPt9 :=
  ⟨by decide, by decide, ratPt1_eq, ratPt9_eq, by decide⟩

/-- C5 (amended): progress is `0` at creation, `0.1` when the item enters
`Uploading`, `0.9` once the remote call *and* the local file move have both
succeeded (the write happens after `fs::rename`, not before), `1.0` on
`Completed`, and untouched on `Failed`; on any task failure the queue's
progress values are untouched. -/
theorem progress_trajectory :
    (∀ (freshId : Nat) (p : FsPath) (now : Nat),
        (UploadItem.new freshId p now).progress = 0)
    ∧ (∀ (it : UploadItem) (now : Nat), (it.start_upload now).progress = 1/10)
    ∧ (∀ (it : UploadItem) (now : Nat), (it.complete_upload now).progress = 1)
    ∧ (∀ (it : UploadItem) (e : String) (now : Nat),
        (it.fail_upload e now).progress = it.progress)
    ∧ (∀ transport mv ts p iid fs q resp fs2 q2,
        upload_and_move_file transport mv ts p iid fs q
          = (Except.ok resp, fs2, q2) →
        ∃ b, p.base = some b ∧ mv = MoveOutcome.ok ∧ fs2 = moveFs fs b ts
          ∧ q2 = q.modify_item_by_id iid (fun it => { it with progress := 9/10 }))
    ∧ (∀ transport mv ts p iid fs q e fs2 q2,
        upload_and_move_file transport mv ts p iid fs q
          = (Except.error e, fs2, q2) → fs2 = fs ∧ q2 = q) := by
  have hfun : (fun it : UploadItem => { it with progress := ratPt9 })
      = (fun it : UploadItem => { it with progress := 9/10 }) := by
    funext it
    rw [ratPt9_eq]
  refine ⟨fun _ _ _ => rfl, fun _ _ => ratPt1_eq, fun _ _ => rfl,
    fun _ _ _ => rfl, ?_, ?_⟩
  · intro transport mv ts p iid fs q resp fs2 q2 h
    cases htf : taskFailure transport p mv with
    | some e =>
      rw [uamf_failure htf ts iid fs q] at h
      exact absurd (congrArg Prod.fst h) (by simp)
    | none =>
      obtain ⟨resp2, b, htr2, hb2, hmv2, heq⟩ := uamf_success htf ts iid fs q
      rw [heq] at h
      simp only [Prod.mk.injEq] at h
      obtain ⟨h1, h2, h3⟩ := h
      refine ⟨b, hb2, hmv2, h2.symm, ?_⟩
      rw [← h3]
      exact congrArg (q.modify_item_by_id iid) hfun
  · intro transport mv ts p iid fs q e fs2 q2 h
    cases htf : taskFailure transport p mv with
    | some e2 =>
      rw [uamf_failure htf ts iid fs q] at h
      simp only [Prod.mk.injEq] at h
      exact ⟨h.2.1.symm, h.2.2.symm⟩
    | none =>
      obtain ⟨resp2, b, htr2, hb2, hmv2, heq⟩ := uamf_success htf ts iid fs q
      rw [heq] at h
      exact absurd (congrArg Prod.fst h) (by simp)

/-- Witness for C5 (amended): the concrete trajectory values at each stage,
a successful task applying the `0.9` write to the queue, and a failing task
leaving the queue untouched. -/
theorem progress_trajectory_witness :
    (UploadItem.new 0 pW 0).progress = 0
    ∧ ((UploadItem.new 0 pW 0).start_upload 1).progress = 1/10
    ∧ (aW1.complete_upload 3).progress = 1
    ∧ (aW1.fail_upload "x" 3).progress = aW1.progress
    ∧ (upload_and_move_file (TransportResult.response respW) MoveOutcome.ok
        "20260101_000000" pW 0 fsW sW1.queue).2.2
      = sW1.queue.modify_item_by_id 0 (fun it => { it with progress := 9/10 })
    ∧ (upload_and_move_file (TransportResult.response respFailW) MoveOutcome.ok
        "20260101_000000" pW 0 fsW sW1.queue).2.2 = sW1.queue := by
  refine ⟨progress_trajectory.1 0 pW 0, progress_trajectory.2.1 _ 1,
    progress_trajectory.2.2.1 aW1 3, progress_trajectory.2.2.2.1 aW1 "x" 3,
    ?_, ?_⟩
  · obtain ⟨b, hb, hmv, hfs, hq⟩ := progress_trajectory.2.2.2.2.1
      (TransportResult.response respW) MoveOutcome.ok "20260101_000000" pW 0
      fsW sW1.queue respW _ _ rfl
    exact hq
  · exact (progress_trajectory.2.2.2.2.2 (TransportResult.response respFailW)
      MoveOutcome.ok "20260101_000000" pW 0 fsW sW1.queue
      "API error: API returned error: quota exceeded" _ _ rfl).2
